import Mathlib

/-!
Verification development for the QuantaAlpha task-supervision layer.

The definitions below are a shallow embedding of two source files:

* `frontend-v2/backend/app.py` — the FastAPI backend that launches mining and
  backtest subprocesses, classifies their output lines into progress / log /
  metric events, keeps a bounded per-task log buffer, and fans events out to
  WebSocket subscribers.
* `alphaagent/app/qlib_rd_loop/factor_mining.py` — the mining entry point with
  its alarm-based deadline decorator and the branch scheduler.

Output lines are embedded as `List Char` so that every text primitive is
structurally recursive and evaluates by kernel reduction.  Python `float`
values extracted from log lines are embedded as `ℚ`.
-/

/-! ### Text primitives

Structural-recursion counterparts of the Python string operations used by the
supervision code: membership (`in`), `rstrip`, `lower`, slicing and `split`.
-/

/-- A decoded output line, as a list of characters. -/
abbrev Line := List Char

/-- Character list of a string literal. -/
def lit (s : String) : Line := s.data

/-- Whether `pat` is a prefix of `s` (Boolean, structural recursion). -/
def isPrefixOfL : Line → Line → Bool
  | [], _ => true
  | _ :: _, [] => false
  | a :: as, b :: bs => a == b && isPrefixOfL as bs

/-- Python's substring test `pat in s`. -/
def containsSub (pat : Line) : Line → Bool
  | [] => pat.isEmpty
  | c :: rest => isPrefixOfL pat (c :: rest) || containsSub pat rest

/-- Python's `str.rstrip()` (default whitespace). -/
def rstripL (s : Line) : Line := (s.reverse.dropWhile Char.isWhitespace).reverse

/-- Python's `str.lstrip()` (default whitespace). -/
def lstripL (s : Line) : Line := s.dropWhile Char.isWhitespace

/-- Python's `str.strip()` (default whitespace). -/
def trimL (s : Line) : Line := rstripL (lstripL s)

/-- Python's `str.lower()` (ASCII case fold suffices for the patterns used). -/
def lowerL (s : Line) : Line := s.map Char.toLower

/-- Split `s` at the first occurrence of `pat`: `some (before, after)` when
`pat` occurs, `none` otherwise.  `before` is Python's `s.split(pat)[0]` and
`after` is everything past the first occurrence. -/
def breakAtL (pat : Line) : Line → Option (Line × Line)
  | [] => if pat.isEmpty then some ([], []) else none
  | c :: rest =>
    if isPrefixOfL pat (c :: rest) then some ([], (c :: rest).drop pat.length)
    else
      match breakAtL pat rest with
      | some (pre, post) => some (c :: pre, post)
      | none => none

/-- Python's `s.split(pat)[0]`: the text before the first occurrence of `pat`,
or all of `s` when `pat` does not occur. -/
def cutBefore (pat : Line) (s : Line) : Line :=
  match breakAtL pat s with
  | some (pre, _) => pre
  | none => s

/-- Value of a run of decimal digit characters (left fold). -/
def digitsValAux (acc : Nat) : Line → Nat
  | [] => acc
  | c :: r => digitsValAux (acc * 10 + (c.toNat - 48)) r

/-- Python's `int(s)` on a plain digit run: `some` iff `s` is nonempty and all
digits. -/
def parseNatL (s : Line) : Option Nat :=
  if s.isEmpty then none
  else if s.all Char.isDigit then some (digitsValAux 0 s) else none

/-- Unsigned decimal literal: digits with at most one decimal point and at
least one digit overall, valued exactly as the rational it denotes. -/
def parseUnsignedDec (s : Line) : Option ℚ :=
  match breakAtL (lit ".") s with
  | none => (parseNatL s).map (fun n => (n : ℚ))
  | some (ip, fp) =>
    if containsSub (lit ".") fp then none
    else if ip.isEmpty && fp.isEmpty then none
    else
      match (if ip.isEmpty then some 0 else parseNatL ip),
            (if fp.isEmpty then some 0 else parseNatL fp) with
      | some iv, some fv => some (((iv * 10 ^ fp.length + fv : ℕ) : ℚ) / (10 : ℚ) ^ fp.length)
      | _, _ => none

/-- Numeric parse used by the metric extractor; models Python `float()` on the
plain decimal forms (surrounding whitespace, optional sign, digits, one
optional decimal point) that the metric log lines carry.  Other `float()`
inputs are outside the modelled fragment and map to `none`, which the caller
treats the same way as a Python `ValueError`. -/
def parseDecimal (s : Line) : Option ℚ :=
  let t := trimL s
  if isPrefixOfL (lit "-") t then (parseUnsignedDec (t.drop 1)).map Neg.neg
  else if isPrefixOfL (lit "+") t then parseUnsignedDec (t.drop 1)
  else parseUnsignedDec t

/-! ### Task data model (`app.py`, in-memory task dicts) -/

/-- Log severity level (`app.py` log classification). -/
inductive Level
  | info
  | warning
  | error
  | success
deriving DecidableEq, Repr

/-- Task lifecycle status. -/
inductive Status
  | running
  | completed
  | failed
  | cancelled
deriving DecidableEq, Repr

/-- A metric value: the task metric dicts hold numbers and (for
`libraryFile`) one string. -/
inductive MVal
  | num (q : ℚ)
  | str (s : String)
deriving DecidableEq

/-- A task's `metrics` dict, as an insertion-ordered association list with
unique keys (Python dict semantics). -/
abbrev MMap := List (String × MVal)

/-- One entry of a task's `logs` list.  The Python dict also carries an opaque
random `id` and a wall-clock `timestamp`; both are opaque to every property
verified here and are omitted. -/
structure LogEntry where
  level : Level
  message : Line
deriving DecidableEq, Repr

/-- An event broadcast to the task's WebSocket subscribers (`_broadcast`
payloads of type `progress`, `log`, `metrics`, `result`, `error`). -/
inductive Event
  | progressEv (phase : String) (message : Line)
  | logEv (entry : LogEntry)
  | metricsEv (m : MMap)
  | resultEv (status : Status)
  | errorEv
deriving DecidableEq

/-- Python dict assignment `m[k] = v`: update in place when the key exists,
append at the end otherwise. -/
def insertMetric (m : MMap) (k : String) (v : MVal) : MMap :=
  if m.any (fun p => p.1 == k) then m.map (fun p => if p.1 == k then (k, v) else p)
  else m ++ [(k, v)]

/-- Python dict read `m[k]` (first binding of the key). -/
def lookupMetric (m : MMap) (k : String) : Option MVal := List.lookup k m

/-- Key set (as a list) of a metrics dict. -/
def mKeys (m : MMap) : List String := m.map Prod.fst

/-- Append a log entry and keep only the last 500 entries
(`task["logs"].append(...)` followed by `task["logs"] = task["logs"][-500:]`
when the length exceeds 500; `app.py` lines 337-340 and 836-838). -/
def appendLog (logs : List LogEntry) (e : LogEntry) : List LogEntry :=
  let l := logs ++ [e]
  if l.length > 500 then l.drop (l.length - 500) else l

/-! ### Mining task supervision (`app.py`: `start_mining`, `_run_mining`,
`cancel_mining`) -/

/-- Mining task state: the task dict fields touched by the supervision code,
plus the two loop-local variables of `_run_mining` (`line_count`,
`current_phase`) that the per-line step threads through. -/
structure MTask where
  status : Status
  progressPhase : String
  currentRound : Nat
  totalRounds : Nat
  progressPercent : Nat
  progressMessage : Line
  logs : List LogEntry
  metricsMap : MMap
  lineCount : Nat
  currentPhase : String

/-- The task dict created by `start_mining` (`app.py` lines 447-470).
`lineCount` and `currentPhase` model the loop locals of `_run_mining`
(lines 266-267), which take these values when the supervising routine starts.
`maxRounds` is the request's `maxRounds` field (`totalRounds` defaults to 3). -/
def startMiningTask (maxRounds : Option Nat) : MTask where
  status := .running
  progressPhase := "parsing"
  currentRound := 0
  totalRounds := maxRounds.getD 3
  progressPercent := 0
  progressMessage := lit "正在初始化实验..."
  logs := []
  metricsMap :=
    [("ic", .num 0), ("icir", .num 0), ("rankIc", .num 0), ("rankIcir", .num 0),
     ("annualReturn", .num 0), ("sharpeRatio", .num 0), ("maxDrawdown", .num 0),
     ("totalFactors", .num 0), ("highQualityFactors", .num 0),
     ("mediumQualityFactors", .num 0), ("lowQualityFactors", .num 0)]
  lineCount := 0
  currentPhase := "planning"

/-- The status/progress writes `_run_mining` performs just before launching the
subprocess (`app.py` lines 243-246). -/
def runMiningStart (t : MTask) : MTask :=
  { t with status := .running, progressPhase := "planning",
           progressMessage := lit "正在启动实验..." }

/-- The `_MINING_NOISE` denylist of `_run_mining` (`app.py` lines 270-279). -/
def miningNoise : List Line :=
  [lit "field data contains nan", lit "common_infra", lit "PyTorch models are skipped",
   lit "UserWarning: pkg_resources", lit "FutureWarning", lit "UserWarning",
   lit "Training until validation scores", lit "Did not meet early stopping"]

/-- Phase detection of `_run_mining` (`app.py` lines 294-307): first matching
rule wins, otherwise the current phase is kept. -/
def detectPhase (current : String) (line : Line) : String :=
  if containsSub (lit "factor_propose") line then "evolving"
  else if containsSub (lit "factor_backtest") line || containsSub (lit "backtest") (lowerL line) then
    "backtesting"
  else if containsSub (lit "feedback") line then "analyzing"
  else if containsSub (lit "factor_calculate") line then "evolving"
  else if containsSub (lit "规划") line || containsSub (lit "planning") (lowerL line) then
    "planning"
  else if containsSub (lit "进化完成") line || containsSub (lit "程序执行完成") line then
    "completed"
  else current

/-- Severity classification of `_run_mining` (`app.py` lines 323-329). -/
def classifyMining (line : Line) : Level :=
  if containsSub (lit "ERROR") line || containsSub (lit "Error") line then .error
  else if containsSub (lit "WARNING") line || containsSub (lit "Warning") line then .warning
  else if containsSub (lit "完成") line || containsSub (lit "success") (lowerL line) then .success
  else .info

/-- The throttling condition of `_run_mining` (`app.py` line 322): with `c` the
already-incremented line counter, store-and-forward happens iff `c` is a
multiple of 3 or the line contains `INFO`, `ERROR` or `WARNING`. -/
def throttlePass (c : Nat) (line : Line) : Bool :=
  c % 3 == 0 || containsSub (lit "INFO") line || containsSub (lit "ERROR") line ||
    containsSub (lit "WARNING") line

/-- Phase-transition step of `_run_mining` (`app.py` lines 294-319): update the
phase state machine and emit a `progress` event when the phase changed. -/
def phaseStep (s : MTask) (line : Line) : MTask × List Event :=
  let np := detectPhase s.currentPhase line
  if np ≠ s.currentPhase then
    ({ s with currentPhase := np, progressPhase := np, progressMessage := line.take 200 },
     [Event.progressEv np (line.take 200)])
  else (s, [])

/-- Throttled log step of `_run_mining` (`app.py` lines 321-347): when the
throttle condition holds, classify the line, append it to the bounded log
buffer and emit a `log` event; otherwise do nothing. -/
def logStep (s : MTask) (line : Line) : MTask × List Event :=
  if throttlePass s.lineCount line then
    let entry : LogEntry := { level := classifyMining line, message := line.take 500 }
    ({ s with logs := appendLog s.logs entry }, [Event.logEv entry])
  else (s, [])

/-- Metric extraction of `_run_mining` (`app.py` lines 349-361):
`line.split("RankIC=")[1].split(",")[0].split(")")[0]` fed to `float`. -/
def extractRankIC (line : Line) : Option ℚ :=
  match breakAtL (lit "RankIC=") line with
  | some (_, after) =>
    let chunk := cutBefore (lit "RankIC=") after
    parseDecimal (cutBefore (lit ")") (cutBefore (lit ",") chunk))
  | none => none

/-- Metric step of `_run_mining` (`app.py` lines 349-361): when the line
contains `RankIC=`, try the numeric parse; on success store the value under
`rankIc` and emit a `metrics` event; on failure (Python's bare `except: pass`)
leave everything unchanged. -/
def metricStep (s : MTask) (line : Line) : MTask × List Event :=
  if containsSub (lit "RankIC=") line then
    match extractRankIC line with
    | some v =>
      ({ s with metricsMap := insertMetric s.metricsMap "rankIc" (.num v) },
       [Event.metricsEv (insertMetric s.metricsMap "rankIc" (.num v))])
    | none => (s, [])
  else (s, [])

/-- One iteration of the `_run_mining` read loop for a decoded raw line
(`app.py` lines 281-361): rstrip, skip empty, increment the line counter,
drop noisy lines, then phase / throttled-log / metric steps. -/
def processMiningLine (s : MTask) (raw : Line) : MTask × List Event :=
  let line := rstripL raw
  if line = [] then (s, [])
  else
    let s1 : MTask := { s with lineCount := s.lineCount + 1 }
    if miningNoise.any (fun p => containsSub p line) then (s1, [])
    else
      let r1 := phaseStep s1 line
      let r2 := logStep r1.1 line
      let r3 := metricStep r2.1 line
      (r3.1, r1.2 ++ r2.2 ++ r3.2)

/-- Finalization of `_run_mining` after the subprocess exits (`app.py` lines
363-375): status and progress are set from the exit code alone.  (The Python
failure message interpolates the exit code; the text is not load-bearing
here.) -/
def finalizeMining (t : MTask) (exitCode : Int) : MTask :=
  if exitCode = 0 then
    { t with status := .completed, progressPhase := "completed",
             progressPercent := 100, progressMessage := lit "实验完成" }
  else
    { t with status := .failed, progressMessage := lit "实验失败" }

/-- Library statistics loaded after finalization (`app.py` lines 388-408):
five dict assignments into `task["metrics"]`. -/
def loadLibraryStats (t : MTask) (total high medium low : Nat) (libName : String) : MTask :=
  let m1 := insertMetric t.metricsMap "totalFactors" (.num (total : ℚ))
  let m2 := insertMetric m1 "libraryFile" (.str libName)
  let m3 := insertMetric m2 "highQualityFactors" (.num (high : ℚ))
  let m4 := insertMetric m3 "mediumQualityFactors" (.num (medium : ℚ))
  let m5 := insertMetric m4 "lowQualityFactors" (.num (low : ℚ))
  { t with metricsMap := m5 }

/-- `cancel_mining` (`app.py` lines 491-510): after optionally signalling the
process, the handler assigns `task["status"] = "cancelled"` with no check of
the current status. -/
def cancelMining (t : MTask) : MTask := { t with status := .cancelled }

/-! ### Backtest task supervision (`app.py`: `start_backtest`, `_run_backtest`,
`cancel_backtest`, `_load_backtest_results`) -/

/-- Backtest task state: the task dict fields touched by the supervision
code. -/
structure BtTask where
  status : Status
  progressPhase : String
  currentRound : Nat
  totalRounds : Nat
  progressPercent : Nat
  progressMessage : Line
  logs : List LogEntry
  metricsMap : MMap

/-- The task dict created by `start_backtest` (`app.py` lines 712-731). -/
def startBacktestTask : BtTask where
  status := .running
  progressPhase := "backtesting"
  currentRound := 0
  totalRounds := 1
  progressPercent := 0
  progressMessage := lit "正在启动回测..."
  logs := []
  metricsMap := []

/-- The `_NOISY_PATTERNS` denylist of `_run_backtest` (`app.py` lines
798-808). -/
def btNoise : List Line :=
  [lit "field data contains nan", lit "common_infra", lit "PyTorch models are skipped",
   lit "UserWarning: pkg_resources", lit "Training until validation scores",
   lit "FutureWarning", lit "UserWarning", lit "Did not meet early stopping",
   lit "num_leaves is set="]

/-- Severity classification of `_run_backtest` (`app.py` lines 822-828): same
as mining plus the check-mark success marker. -/
def classifyBt (line : Line) : Level :=
  if containsSub (lit "ERROR") line || containsSub (lit "Error") line then .error
  else if containsSub (lit "WARNING") line || containsSub (lit "Warning") line then .warning
  else if containsSub (lit "完成") line || containsSub (lit "success") (lowerL line) ||
          containsSub (lit "✓") line then .success
  else .info

/-- Progress-message keywords of `_run_backtest` (`app.py` line 841). -/
def btKeywords : List Line :=
  [lit "因子", lit "回测", lit "模型", lit "训练", lit "完成", lit "加载"]

/-- One iteration of the `_run_backtest` read loop for a decoded raw line
(`app.py` lines 810-856): rstrip, skip empty, drop noisy lines, classify,
append to the bounded log buffer, optionally update the progress message, and
always emit a `log` event. -/
def btProcessLine (s : BtTask) (raw : Line) : BtTask × List Event :=
  let line := rstripL raw
  if line = [] then (s, [])
  else if btNoise.any (fun p => containsSub p line) then (s, [])
  else
    let entry : LogEntry := { level := classifyBt line, message := line.take 500 }
    let s1 : BtTask := { s with logs := appendLog s.logs entry }
    if btKeywords.any (fun k => containsSub k line) then
      ({ s1 with progressMessage := line.take 200 },
       [Event.progressEv s1.progressPhase (line.take 200), Event.logEv entry])
    else (s1, [Event.logEv entry])

/-- Finalization of `_run_backtest` after the subprocess exits (`app.py` lines
858-868): status from the exit code; on success the progress is completed and
`_load_backtest_results` replaces `task["metrics"]` with the flattened metrics
file when one is found (`loaded = some flat`); when no metrics file is found
or reading it fails, the metrics dict is left untouched (`loaded = none`). -/
def btFinalize (s : BtTask) (exitCode : Int) (loaded : Option MMap) : BtTask :=
  let s1 : BtTask := { s with status := if exitCode = 0 then .completed else .failed }
  if exitCode = 0 then
    let s2 : BtTask := { s1 with progressPhase := "completed", progressPercent := 100,
                                 progressMessage := lit "回测完成" }
    match loaded with
    | some flat => { s2 with metricsMap := flat }
    | none => s2
  else s1

/-- `cancel_backtest` (`app.py` lines 751-770): after optionally signalling
the process, assigns `task["status"] = "cancelled"` unconditionally. -/
def cancelBacktest (s : BtTask) : BtTask := { s with status := .cancelled }

/-- The read loop of `_run_backtest` folded over the decoded lines of the
subprocess output. -/
def btRunLoop : BtTask → List Line → BtTask
  | s, [] => s
  | s, l :: ls => btRunLoop (btProcessLine s l).1 ls

/-- The metrics dict after each iteration of the `_run_backtest` read loop,
starting with the given state. -/
def btMetricsStates : BtTask → List Line → List MMap
  | s, [] => [s.metricsMap]
  | s, l :: ls => s.metricsMap :: btMetricsStates (btProcessLine s l).1 ls

/-- The metrics dict observed at every step of one full backtest supervision:
at creation, after each processed line, and after finalization. -/
def btMetricsTrace (lines : List Line) (exitCode : Int) (loaded : Option MMap) : List MMap :=
  btMetricsStates startBacktestTask lines ++
    [(btFinalize (btRunLoop startBacktestTask lines) exitCode loaded).metricsMap]

/-! ### Branch scheduler (`factor_mining.py`: `main`, sequential branch) -/

/-- Sequential scheduling as the specification words it: one trial run per
direction, one at a time in list order, each run receiving its own branch's
direction text. -/
def seqRunDirections_spec (directions : List String) : List String := directions

/-- Sequential scheduling as `factor_mining.py` lines 153-169 indent it: the
`for idx, dir_text in enumerate(directions, start=1)` loop body covers only
the branch-log setup (lines 155-161); the `AlphaAgentLoop` construction sits
after the loop at the outer level, so a single run occurs, receiving the final
value of the leaked loop variable `dir_text` — the last direction (no run at
all when the list is empty, where `dir_text` is unbound).  On top of that,
line 169 (`model_loop.run(...)`) is indented one level deeper than line 168
with no block opener, an IndentationError: the module as committed does not
even load.  This definition models the run list the committed indentation
denotes. -/
def seqRunDirections_code (directions : List String) : List String :=
  match directions.getLast? with
  | some d => [d]
  | none => []

/-! ### Deadline enforcement (`factor_mining.py`: `force_timeout`) -/

/-- Observable actions of the `force_timeout` decorator: installing the
SIGALRM handler, programming the one-shot alarm (`signal.alarm n`; `n = 0`
disarms), entering the wrapped call, and leaving it (normally or by
exception). -/
inductive TimerAction
  | setHandler
  | alarm (n : Nat)
  | callEnter
  | callExit (ok : Bool)
deriving DecidableEq, Repr

/-- Action trace of one invocation of the `force_timeout` wrapper
(`factor_mining.py` lines 28-50): install the handler, arm the alarm with the
configured seconds, run the wrapped call, and — in the `finally` block, hence
on the normal path and on the exception path alike — disarm the alarm with
`signal.alarm(0)` before the call's result or exception propagates. -/
def forceTimeoutTrace (seconds : Nat) (ok : Bool) : List TimerAction :=
  [.setHandler, .alarm seconds, .callEnter, .callExit ok, .alarm 0]

/-- Alarm register after executing a list of timer actions from the given
initial value: each `signal.alarm n` overwrites it. -/
def alarmRegAfter (init : Nat) (tr : List TimerAction) : Nat :=
  tr.foldl (fun r a => match a with | .alarm n => n | _ => r) init

/-- Alarm register in effect when the wrapped call starts executing. -/
def alarmRegAtCall (tr : List TimerAction) : Nat :=
  alarmRegAfter 0 (tr.takeWhile (fun a => a != .callEnter))

/-- Exit status of the expiry handler `handle_timeout` (`factor_mining.py`
lines 34-36): it logs and performs `sys.exit(1)` — immediate termination with
a nonzero exit status. -/
def handleTimeoutExitStatus : Nat := 1

/-! ### Event broadcasting and subscriber attach (`app.py`: `ws_mining`,
`_broadcast`) -/

/-- Subscriber attach (`app.py` lines 979-1004): the socket is appended to the
task's connection list, then immediately receives the current `progress`
snapshot followed by the last 20 buffered log entries
(`tasks[task_id].get("logs", [])[-20:]`) in insertion order.  Sockets are
identified by opaque numbers. -/
def wsAttach (conns : List Nat) (ws : Nat) (phase : String) (message : Line)
    (logs : List LogEntry) : List Nat × List Event :=
  (conns ++ [ws],
   Event.progressEv phase message :: (logs.drop (logs.length - 20)).map Event.logEv)

/-- One `_broadcast` call (`app.py` lines 153-164): the message is sent to
every currently attached socket; sockets whose send raises (`fails`) are
pruned from the connection list afterwards.  Returns the delivered
(socket, message) pairs and the pruned connection list. -/
def broadcastStep (conns : List Nat) (fails : Nat → Bool) (msg : Event) :
    List (Nat × Event) × List Nat :=
  ((conns.filter (fun w => !(fails w))).map (fun w => (w, msg)),
   conns.filter (fun w => !(fails w)))

/-- The phase vocabulary the specification's state machine names. -/
def allowedPhases : List String :=
  ["planning", "evolving", "backtesting", "analyzing", "completed"]

/-! ### Helper lemmas about the per-line mining step -/

theorem phaseStep_logs (s : MTask) (l : Line) : (phaseStep s l).1.logs = s.logs := by
  simp only [phaseStep]; split <;> rfl

theorem phaseStep_lineCount (s : MTask) (l : Line) :
    (phaseStep s l).1.lineCount = s.lineCount := by
  simp only [phaseStep]; split <;> rfl

theorem phaseStep_metricsMap (s : MTask) (l : Line) :
    (phaseStep s l).1.metricsMap = s.metricsMap := by
  simp only [phaseStep]; split <;> rfl

theorem phaseStep_status (s : MTask) (l : Line) : (phaseStep s l).1.status = s.status := by
  simp only [phaseStep]; split <;> rfl

theorem phaseStep_currentPhase (s : MTask) (l : Line) :
    (phaseStep s l).1.currentPhase = detectPhase s.currentPhase l := by
  simp only [phaseStep]
  split
  · rfl
  · next h => exact (not_ne_iff.mp h).symm

theorem phaseStep_progressPhase (s : MTask) (l : Line) :
    (phaseStep s l).1.progressPhase = detectPhase s.currentPhase l ∨
      (phaseStep s l).1.progressPhase = s.progressPhase := by
  simp only [phaseStep]; split
  · exact Or.inl rfl
  · exact Or.inr rfl

theorem phaseStep_snd (s : MTask) (l : Line) :
    (phaseStep s l).2 = [] ∨ ∃ p m, (phaseStep s l).2 = [Event.progressEv p m] := by
  simp only [phaseStep]; split
  · exact Or.inr ⟨_, _, rfl⟩
  · exact Or.inl rfl

theorem logStep_lineCount (s : MTask) (l : Line) : (logStep s l).1.lineCount = s.lineCount := by
  simp only [logStep]; split <;> rfl

theorem logStep_metricsMap (s : MTask) (l : Line) :
    (logStep s l).1.metricsMap = s.metricsMap := by
  simp only [logStep]; split <;> rfl

theorem logStep_status (s : MTask) (l : Line) : (logStep s l).1.status = s.status := by
  simp only [logStep]; split <;> rfl

theorem logStep_currentPhase (s : MTask) (l : Line) :
    (logStep s l).1.currentPhase = s.currentPhase := by
  simp only [logStep]; split <;> rfl

theorem logStep_progressPhase (s : MTask) (l : Line) :
    (logStep s l).1.progressPhase = s.progressPhase := by
  simp only [logStep]; split <;> rfl

theorem logStep_of_pass (s : MTask) (l : Line) (h : throttlePass s.lineCount l = true) :
    logStep s l =
      ({ s with logs := appendLog s.logs { level := classifyMining l, message := l.take 500 } },
       [Event.logEv { level := classifyMining l, message := l.take 500 }]) := by
  simp [logStep, h]

theorem logStep_of_fail (s : MTask) (l : Line) (h : throttlePass s.lineCount l = false) :
    logStep s l = (s, []) := by
  simp only [logStep, h]; rfl

theorem metricStep_logs (s : MTask) (l : Line) : (metricStep s l).1.logs = s.logs := by
  simp only [metricStep]; split
  · split <;> rfl
  · rfl

theorem metricStep_lineCount (s : MTask) (l : Line) :
    (metricStep s l).1.lineCount = s.lineCount := by
  simp only [metricStep]; split
  · split <;> rfl
  · rfl

theorem metricStep_status (s : MTask) (l : Line) : (metricStep s l).1.status = s.status := by
  simp only [metricStep]; split
  · split <;> rfl
  · rfl

theorem metricStep_currentPhase (s : MTask) (l : Line) :
    (metricStep s l).1.currentPhase = s.currentPhase := by
  simp only [metricStep]; split
  · split <;> rfl
  · rfl

theorem metricStep_progressPhase (s : MTask) (l : Line) :
    (metricStep s l).1.progressPhase = s.progressPhase := by
  simp only [metricStep]; split
  · split <;> rfl
  · rfl

theorem metricStep_metricsMap (s : MTask) (l : Line) :
    (metricStep s l).1.metricsMap = s.metricsMap ∨
      ∃ v, (metricStep s l).1.metricsMap = insertMetric s.metricsMap "rankIc" (.num v) := by
  simp only [metricStep]; split
  · split
    · exact Or.inr ⟨_, rfl⟩
    · exact Or.inl rfl
  · exact Or.inl rfl

theorem metricStep_snd (s : MTask) (l : Line) :
    (metricStep s l).2 = [] ∨ ∃ m, (metricStep s l).2 = [Event.metricsEv m] := by
  simp only [metricStep]; split
  · split
    · exact Or.inr ⟨_, rfl⟩
    · exact Or.inl rfl
  · exact Or.inl rfl

theorem metricStep_of_parse_fail (s : MTask) (l : Line) (h : extractRankIC l = none) :
    metricStep s l = (s, []) := by
  simp only [metricStep, h]; split <;> rfl

/-- Unfolding of `processMiningLine` on a line that survives the empty check
and the noise filter. -/
theorem processMiningLine_cont (s : MTask) (raw : Line) (h1 : rstripL raw ≠ [])
    (h2 : miningNoise.any (fun p => containsSub p (rstripL raw)) = false) :
    processMiningLine s raw =
      ((metricStep (logStep (phaseStep { s with lineCount := s.lineCount + 1 }
          (rstripL raw)).1 (rstripL raw)).1 (rstripL raw)).1,
       (phaseStep { s with lineCount := s.lineCount + 1 } (rstripL raw)).2 ++
         (logStep (phaseStep { s with lineCount := s.lineCount + 1 }
           (rstripL raw)).1 (rstripL raw)).2 ++
         (metricStep (logStep (phaseStep { s with lineCount := s.lineCount + 1 }
           (rstripL raw)).1 (rstripL raw)).1 (rstripL raw)).2) := by
  simp only [processMiningLine, h1, h2]
  rfl

/-- Unfolding of `processMiningLine` on a nonempty noisy line: only the line
counter moves. -/
theorem processMiningLine_noise (s : MTask) (raw : Line) (h1 : rstripL raw ≠ [])
    (h2 : miningNoise.any (fun p => containsSub p (rstripL raw)) = true) :
    processMiningLine s raw = ({ s with lineCount := s.lineCount + 1 }, []) := by
  simp only [processMiningLine, h1, h2]
  rfl

/-! ### Helper lemmas about metric dictionaries and the backtest loop -/

theorem mem_mKeys_insertMetric (m : MMap) (k : String) (v : MVal) (k' : String)
    (h : k' ∈ mKeys m) : k' ∈ mKeys (insertMetric m k v) := by
  rcases List.mem_map.mp h with ⟨p, hp, hpk⟩
  unfold insertMetric
  split
  · refine List.mem_map.mpr ⟨if p.1 == k then (k, v) else p, List.mem_map_of_mem _ hp, ?_⟩
    by_cases hbe : p.1 == k
    · simp only [hbe, if_pos]
      exact (eq_of_beq hbe).symm.trans hpk
    · simp only [hbe, if_neg]
      exact hpk
  · exact List.mem_map.mpr ⟨p, List.mem_append_left _ hp, hpk⟩

theorem btProcessLine_metricsMap (s : BtTask) (raw : Line) :
    (btProcessLine s raw).1.metricsMap = s.metricsMap := by
  simp only [btProcessLine]
  split
  · rfl
  · split
    · rfl
    · split <;> rfl

theorem btProcessLine_status (s : BtTask) (raw : Line) :
    (btProcessLine s raw).1.status = s.status := by
  simp only [btProcessLine]
  split
  · rfl
  · split
    · rfl
    · split <;> rfl

theorem btRunLoop_metricsMap (ls : List Line) (s : BtTask) :
    (btRunLoop s ls).metricsMap = s.metricsMap := by
  induction ls generalizing s with
  | nil => rfl
  | cons l ls ih => rw [btRunLoop, ih, btProcessLine_metricsMap]

theorem btMetricsStates_all_eq (ls : List Line) (s : BtTask) :
    ∀ m ∈ btMetricsStates s ls, m = s.metricsMap := by
  induction ls generalizing s with
  | nil =>
    intro m hm
    simp only [btMetricsStates, List.mem_singleton] at hm
    exact hm
  | cons l ls ih =>
    intro m hm
    simp only [btMetricsStates, List.mem_cons] at hm
    rcases hm with hm | hm
    · exact hm
    · exact (ih _ m hm).trans (btProcessLine_metricsMap s l)

theorem btMetricsStates_ne_nil (ls : List Line) (s : BtTask) :
    btMetricsStates s ls ≠ [] := by
  cases ls <;> simp [btMetricsStates]

theorem btMetricsStates_head (ls : List Line) (s : BtTask) :
    (btMetricsStates s ls).head? = some s.metricsMap := by
  cases ls <;> rfl

theorem head?_append_left {α : Type} {l1 l2 : List α} (h : l1 ≠ []) :
    (l1 ++ l2).head? = l1.head? := by
  cases l1 with
  | nil => exact absurd rfl h
  | cons a t => rfl

/-- Along one full backtest supervision starting from a state with an empty
metrics dict, every step only grows the key set of the metrics dict. -/
theorem btChain (ls : List Line) (s : BtTask) (c : Int) (ld : Option MMap)
    (hm : s.metricsMap = []) :
    List.Chain' (fun a b => ∀ k, k ∈ mKeys a → k ∈ mKeys b)
      (btMetricsStates s ls ++ [(btFinalize (btRunLoop s ls) c ld).metricsMap]) := by
  induction ls generalizing s with
  | nil =>
    simp only [btMetricsStates, btRunLoop, List.singleton_append, List.chain'_cons,
      List.chain'_singleton, and_true]
    intro k hk
    rw [hm] at hk
    simp [mKeys] at hk
  | cons l ls ih =>
    simp only [btMetricsStates, btRunLoop, List.cons_append]
    refine List.chain'_cons'.mpr ⟨?_, ?_⟩
    · intro b hb
      rw [head?_append_left (btMetricsStates_ne_nil ls _), btMetricsStates_head] at hb
      intro k hk
      rw [hm] at hk
      simp [mKeys] at hk
    · exact ih _ ((btProcessLine_metricsMap s l) ▸ hm)

/-! ### Claim theorems -/

/-- C1 (counterexample): the claim that a terminal status is never overwritten
is false on the code.  A task finalized as `completed` and then cancelled ends
up `cancelled`; a task cancelled during supervision and then finalized with a
nonzero exit code ends up `failed`. -/
theorem C1_counterexample :
    (finalizeMining (runMiningStart (startMiningTask none)) 0).status = Status.completed ∧
    (cancelMining (finalizeMining (runMiningStart (startMiningTask none)) 0)).status
      = Status.cancelled ∧
    Status.cancelled ≠ Status.completed ∧
    (cancelMining (runMiningStart (startMiningTask none))).status = Status.cancelled ∧
    (finalizeMining (cancelMining (runMiningStart (startMiningTask none))) 1).status
      = Status.failed ∧
    Status.failed ≠ Status.cancelled :=
  ⟨rfl, rfl, by decide, rfl, rfl, by decide⟩

/-- C1 (amended): `cancel_mining` / `cancel_backtest` set `status=cancelled`
unconditionally, with no check of the current status, and the supervising
routines' finalization sets the status from the exit code alone, equally
unconditionally — so a terminal status can be overwritten by either. -/
theorem C1_amended :
    (∀ t : MTask, (cancelMining t).status = Status.cancelled) ∧
    (∀ b : BtTask, (cancelBacktest b).status = Status.cancelled) ∧
    (∀ (t : MTask) (c : Int),
      (finalizeMining t c).status = if c = 0 then Status.completed else Status.failed) ∧
    (∀ (b : BtTask) (c : Int) (ld : Option MMap),
      (btFinalize b c ld).status = if c = 0 then Status.completed else Status.failed) := by
  refine ⟨fun t => rfl, fun b => rfl, fun t c => ?_, fun b c ld => ?_⟩
  · by_cases hc : c = 0 <;> simp [finalizeMining, hc]
  · by_cases hc : c = 0 <;> cases ld <;> simp [btFinalize, hc]

/-- C2: appending a line to a task's log buffer keeps the buffer at no more
than 500 entries, the retained entries are a suffix of the old entries
followed by the new one (oldest dropped first, insertion order preserved), and
nothing is dropped while the buffer is below capacity. -/
theorem C2_logs_bounded (logs : List LogEntry) (e : LogEntry) (h : logs.length ≤ 500) :
    (appendLog logs e).length ≤ 500 ∧
    List.IsSuffix (appendLog logs e) (logs ++ [e]) ∧
    (logs.length < 500 → appendLog logs e = logs ++ [e]) := by
  simp only [appendLog]
  split
  · next hgt =>
    refine ⟨?_, List.drop_suffix _ _, fun hlt => ?_⟩
    · rw [List.length_drop]; omega
    · exfalso; simp only [List.length_append, List.length_singleton] at hgt; omega
  · next hle =>
    exact ⟨by omega, List.suffix_refl _, fun _ => rfl⟩

/-- C2 witness: the bound holds concretely when appending to an empty
buffer. -/
theorem C2_witness :
    (appendLog [] { level := Level.info, message := lit "x" }).length ≤ 500 ∧
    List.IsSuffix (appendLog [] { level := Level.info, message := lit "x" })
      ([] ++ [{ level := Level.info, message := lit "x" }]) ∧
    (([] : List LogEntry).length < 500 →
      appendLog [] { level := Level.info, message := lit "x" }
        = [] ++ [{ level := Level.info, message := lit "x" }]) :=
  C2_logs_bounded [] { level := Level.info, message := lit "x" } (by decide)

/-- C3 (counterexample): the claim that a denylisted line "is never counted
(it does not advance the line counter used for delivery throttling)" is false
on the mining loop: `line_count += 1` runs before the noise filter, so a noisy
line advances the counter from 0 to 1. -/
theorem C3_counterexample :
    miningNoise.any
      (fun p => containsSub p (rstripL (lit "a FutureWarning occurred"))) = true ∧
    (runMiningStart (startMiningTask none)).lineCount = 0 ∧
    (processMiningLine (runMiningStart (startMiningTask none))
      (lit "a FutureWarning occurred")).1.lineCount = 1 ∧
    (1 : Nat) ≠ 0 :=
  ⟨rfl, rfl, rfl, by decide⟩

/-- C3 (amended): a nonempty denylisted line is discarded before severity
classification, storage and event emission — in the mining loop the only
effect is that the already-incremented line counter keeps its new value, and
in the backtest loop there is no effect at all. -/
theorem C3_amended :
    (∀ (s : MTask) (raw : Line), rstripL raw ≠ [] →
      miningNoise.any (fun p => containsSub p (rstripL raw)) = true →
      processMiningLine s raw = ({ s with lineCount := s.lineCount + 1 }, [])) ∧
    (∀ (b : BtTask) (raw : Line), rstripL raw ≠ [] →
      btNoise.any (fun p => containsSub p (rstripL raw)) = true →
      btProcessLine b raw = (b, [])) := by
  constructor
  · exact fun s raw h1 h2 => processMiningLine_noise s raw h1 h2
  · intro b raw h1 h2
    simp only [btProcessLine, h1, h2]
    rfl

/-- C3 witness: the amended statement applied to a concrete noisy line in both
loops. -/
theorem C3_witness :
    processMiningLine (runMiningStart (startMiningTask none)) (lit "x FutureWarning y")
      = ({ runMiningStart (startMiningTask none) with lineCount := 1 }, []) ∧
    btProcessLine startBacktestTask (lit "x FutureWarning y") = (startBacktestTask, []) :=
  ⟨C3_amended.1 (runMiningStart (startMiningTask none)) (lit "x FutureWarning y")
      (by decide) (by decide),
   C3_amended.2 startBacktestTask (lit "x FutureWarning y") (by decide) (by decide)⟩

/-- C4 (counterexample): the claim that every non-noise classified line "is
appended to the task's bounded log buffer regardless of throttling" and that
forwarding happens iff the line is every 3rd / classified error or warning /
info-marked is false: the first line `an Error here` is classified `error`
(mixed-case `Error`), yet — the throttle tests only the upper-case markers and
the counter — it is neither stored in the buffer nor forwarded. -/
theorem C4_counterexample :
    classifyMining (lit "an Error here") = Level.error ∧
    (processMiningLine (runMiningStart (startMiningTask none)) (lit "an Error here")).1.logs
      = [] ∧
    (processMiningLine (runMiningStart (startMiningTask none)) (lit "an Error here")).2
      = [] :=
  ⟨rfl, rfl, rfl⟩

/-- C4 (amended): in the mining loop a non-noise line is stored in the bounded
buffer and forwarded as a live `log` event exactly when the incremented line
counter is a multiple of 3 or the line contains one of the upper-case markers
`INFO`, `ERROR`, `WARNING`; lines failing that test are neither stored nor
forwarded.  In the backtest loop every non-noise line is stored and forwarded
unconditionally. -/
theorem C4_amended :
    (∀ (s : MTask) (l : Line), throttlePass s.lineCount l = false → logStep s l = (s, [])) ∧
    (∀ (s : MTask) (raw : Line), rstripL raw ≠ [] →
      miningNoise.any (fun p => containsSub p (rstripL raw)) = false →
      throttlePass (s.lineCount + 1) (rstripL raw) = false →
      (processMiningLine s raw).1.logs = s.logs ∧
      (∀ e : LogEntry, Event.logEv e ∉ (processMiningLine s raw).2)) ∧
    (∀ (s : MTask) (raw : Line), rstripL raw ≠ [] →
      miningNoise.any (fun p => containsSub p (rstripL raw)) = false →
      throttlePass (s.lineCount + 1) (rstripL raw) = true →
      (processMiningLine s raw).1.logs = appendLog s.logs
        (LogEntry.mk (classifyMining (rstripL raw)) ((rstripL raw).take 500)) ∧
      Event.logEv (LogEntry.mk (classifyMining (rstripL raw)) ((rstripL raw).take 500))
        ∈ (processMiningLine s raw).2) ∧
    (∀ (b : BtTask) (raw : Line), rstripL raw ≠ [] →
      btNoise.any (fun p => containsSub p (rstripL raw)) = false →
      (btProcessLine b raw).1.logs = appendLog b.logs
        (LogEntry.mk (classifyBt (rstripL raw)) ((rstripL raw).take 500)) ∧
      Event.logEv (LogEntry.mk (classifyBt (rstripL raw)) ((rstripL raw).take 500))
        ∈ (btProcessLine b raw).2) := by
  refine ⟨fun s l h => logStep_of_fail s l h, ?_, ?_, ?_⟩
  · intro s raw h1 h2 h3
    rw [processMiningLine_cont s raw h1 h2]
    have hlc : (phaseStep { s with lineCount := s.lineCount + 1 } (rstripL raw)).1.lineCount
        = s.lineCount + 1 := phaseStep_lineCount _ _
    have hfail := logStep_of_fail _ (rstripL raw) (hlc ▸ h3)
    constructor
    · rw [metricStep_logs, hfail]
      exact phaseStep_logs _ _
    · intro e
      have hl2 : (logStep (phaseStep { s with lineCount := s.lineCount + 1 }
          (rstripL raw)).1 (rstripL raw)).2 = [] := by rw [hfail]
      rcases phaseStep_snd { s with lineCount := s.lineCount + 1 } (rstripL raw) with hp | ⟨p, m, hp⟩ <;>
        rcases metricStep_snd (logStep (phaseStep { s with lineCount := s.lineCount + 1 }
          (rstripL raw)).1 (rstripL raw)).1 (rstripL raw) with hq | ⟨mm, hq⟩ <;>
        simp [hp, hq, hl2]
  · intro s raw h1 h2 h3
    rw [processMiningLine_cont s raw h1 h2]
    have hlc : (phaseStep { s with lineCount := s.lineCount + 1 } (rstripL raw)).1.lineCount
        = s.lineCount + 1 := phaseStep_lineCount _ _
    have hpass := logStep_of_pass _ (rstripL raw) (hlc ▸ h3)
    constructor
    · rw [metricStep_logs, hpass]
      simp only
      rw [phaseStep_logs]
    · rw [hpass]
      simp [List.mem_append]
  · intro b raw h1 h2
    simp only [btProcessLine]
    rw [if_neg h1, if_neg (by simp [h2])]
    split
    · exact ⟨rfl, by simp⟩
    · exact ⟨rfl, by simp⟩

/-- C4 witness: the amended statement applied to concrete lines — a throttled
plain line (not stored), an `ERROR`-marked line (stored and forwarded), and a
plain backtest line (stored and forwarded). -/
theorem C4_witness :
    (processMiningLine (runMiningStart (startMiningTask none)) (lit "plain output line")).1.logs
      = (runMiningStart (startMiningTask none)).logs ∧
    Event.logEv (LogEntry.mk (classifyMining (rstripL (lit "xx ERROR yy")))
        ((rstripL (lit "xx ERROR yy")).take 500))
      ∈ (processMiningLine (runMiningStart (startMiningTask none)) (lit "xx ERROR yy")).2 ∧
    Event.logEv (LogEntry.mk (classifyBt (rstripL (lit "plain output line")))
        ((rstripL (lit "plain output line")).take 500))
      ∈ (btProcessLine startBacktestTask (lit "plain output line")).2 :=
  ⟨(C4_amended.2.1 (runMiningStart (startMiningTask none)) (lit "plain output line")
      (by decide) (by decide) (by decide)).1,
   (C4_amended.2.2.1 (runMiningStart (startMiningTask none)) (lit "xx ERROR yy")
      (by decide) (by decide) (by decide)).2,
   (C4_amended.2.2.2 startBacktestTask (lit "plain output line")
      (by decide) (by decide)).2⟩

/-- C5: processing a line containing `RankIC=0.0016,IC=0.01)` stores
0.0016 (= 16/10⁴ = 16/10000) under the `rankIc` metric key and emits exactly a
`metrics` event; and any line whose numeric parse fails is silently ignored by
the extraction step — task state, status included, is unchanged and no event
is emitted. -/
theorem C5_metric_extraction :
    lookupMetric (processMiningLine (runMiningStart (startMiningTask none))
        (lit "RankIC=0.0016,IC=0.01)")).1.metricsMap "rankIc"
      = some (MVal.num (((16 : ℕ) : ℚ) / (10 : ℚ) ^ 4)) ∧
    (((16 : ℕ) : ℚ) / (10 : ℚ) ^ 4) = 16 / 10000 ∧
    (processMiningLine (runMiningStart (startMiningTask none))
        (lit "RankIC=0.0016,IC=0.01)")).2
      = [Event.metricsEv (insertMetric (runMiningStart (startMiningTask none)).metricsMap
          "rankIc" (MVal.num (((16 : ℕ) : ℚ) / (10 : ℚ) ^ 4)))] ∧
    (∀ (s : MTask) (l : Line), extractRankIC l = none → metricStep s l = (s, [])) :=
  ⟨rfl, by norm_num, rfl, fun s l h => metricStep_of_parse_fail s l h⟩

/-- C5 witness: the parse-failure clause applied to the concrete line
`RankIC=abc,x`. -/
theorem C5_witness :
    metricStep (runMiningStart (startMiningTask none)) (lit "RankIC=abc,x")
      = (runMiningStart (startMiningTask none), []) :=
  C5_metric_extraction.2.2.2 (runMiningStart (startMiningTask none)) (lit "RankIC=abc,x") rfl

/-- Closure of the phase-detection rules over the five specification phases:
every rule's target phase is in the set, and a non-matching line keeps the
current phase. -/
theorem detectPhase_mem (cur : String) (l : Line) (h : cur ∈ allowedPhases) :
    detectPhase cur l ∈ allowedPhases := by
  simp only [detectPhase]
  repeat' split
  all_goals first | exact h | decide

/-- C6: metric dicts only accumulate.  A Python dict assignment never removes
a key; the mining per-line step at most inserts `rankIc`; mining finalization
leaves the metric dict alone and the library-statistics step only inserts; the
backtest per-line step never touches the metric dict; and along a full
backtest supervision (creation, each processed line, finalization — the only
writer of `task["metrics"]`, which it reaches while the dict is still empty)
the key set grows monotonically at every step. -/
theorem C6_metrics_monotone :
    (∀ (m : MMap) (k : String) (v : MVal) (k' : String),
      k' ∈ mKeys m → k' ∈ mKeys (insertMetric m k v)) ∧
    (∀ (s : MTask) (raw : Line) (k' : String),
      k' ∈ mKeys s.metricsMap → k' ∈ mKeys (processMiningLine s raw).1.metricsMap) ∧
    (∀ (t : MTask) (c : Int), (finalizeMining t c).metricsMap = t.metricsMap) ∧
    (∀ (t : MTask) (total high medium low : Nat) (name : String) (k' : String),
      k' ∈ mKeys t.metricsMap →
      k' ∈ mKeys (loadLibraryStats t total high medium low name).metricsMap) ∧
    (∀ (b : BtTask) (raw : Line), (btProcessLine b raw).1.metricsMap = b.metricsMap) ∧
    (∀ (lines : List Line) (c : Int) (ld : Option MMap),
      List.Chain' (fun a b => ∀ k, k ∈ mKeys a → k ∈ mKeys b) (btMetricsTrace lines c ld)) := by
  refine ⟨mem_mKeys_insertMetric, ?_, ?_, ?_, btProcessLine_metricsMap, ?_⟩
  · intro s raw k' h
    by_cases h1 : rstripL raw = []
    · simp only [processMiningLine]
      rw [if_pos h1]
      exact h
    · by_cases h2 : miningNoise.any (fun p => containsSub p (rstripL raw)) = true
      · rw [processMiningLine_noise s raw h1 h2]
        exact h
      · have h2f : miningNoise.any (fun p => containsSub p (rstripL raw)) = false := by
          simpa using h2
        rw [processMiningLine_cont s raw h1 h2f]
        rcases metricStep_metricsMap (logStep (phaseStep { s with lineCount := s.lineCount + 1 }
            (rstripL raw)).1 (rstripL raw)).1 (rstripL raw) with he | ⟨v, he⟩
        · rw [he, logStep_metricsMap, phaseStep_metricsMap]
          exact h
        · rw [he, logStep_metricsMap, phaseStep_metricsMap]
          exact mem_mKeys_insertMetric _ _ _ _ h
  · intro t c
    by_cases hc : c = 0 <;> simp [finalizeMining, hc]
  · intro t total high medium low name k' h
    simp only [loadLibraryStats]
    exact mem_mKeys_insertMetric _ _ _ _ (mem_mKeys_insertMetric _ _ _ _
      (mem_mKeys_insertMetric _ _ _ _ (mem_mKeys_insertMetric _ _ _ _
        (mem_mKeys_insertMetric _ _ _ _ h))))
  · exact fun lines c ld => btChain lines startBacktestTask c ld rfl

/-- C6 witness: inserting a fresh key keeps an existing key present. -/
theorem C6_witness :
    "rankIc" ∈ mKeys (insertMetric (startMiningTask none).metricsMap "newKey" (MVal.num 0)) :=
  C6_metrics_monotone.1 (startMiningTask none).metricsMap "newKey" (MVal.num 0) "rankIc"
    (by decide)

/-- C7 (counterexample): the claim that a mining task's initial phase is
`planning` and that the phase always lies in the five-phase vocabulary is
false at creation: `start_mining` creates the task with phase `parsing`, which
is not in the vocabulary. -/
theorem C7_counterexample :
    (startMiningTask none).progressPhase = "parsing" ∧
    "parsing" ∉ allowedPhases ∧
    (startMiningTask none).progressPhase ≠ "planning" :=
  ⟨rfl, by decide, by decide⟩

/-- C7 (amended): the phase is `parsing` at creation (outside the five-phase
vocabulary); the supervising routine sets it to `planning` when it starts, and
from any state whose phases lie in the vocabulary the per-line classifier and
the finalization keep it there. -/
theorem C7_amended :
    (∀ mr : Option Nat, (startMiningTask mr).progressPhase = "parsing") ∧
    (∀ t : MTask, (runMiningStart t).progressPhase = "planning") ∧
    "planning" ∈ allowedPhases ∧
    (∀ (cur : String) (l : Line), cur ∈ allowedPhases → detectPhase cur l ∈ allowedPhases) ∧
    (∀ (s : MTask) (raw : Line), s.currentPhase ∈ allowedPhases →
      s.progressPhase ∈ allowedPhases →
      (processMiningLine s raw).1.currentPhase ∈ allowedPhases ∧
      (processMiningLine s raw).1.progressPhase ∈ allowedPhases) ∧
    (∀ (t : MTask) (c : Int), t.progressPhase ∈ allowedPhases →
      (finalizeMining t c).progressPhase ∈ allowedPhases) := by
  refine ⟨fun mr => rfl, fun t => rfl, by decide, detectPhase_mem, ?_, ?_⟩
  · intro s raw hc hp
    by_cases h1 : rstripL raw = []
    · simp only [processMiningLine]
      rw [if_pos h1]
      exact ⟨hc, hp⟩
    · by_cases h2 : miningNoise.any (fun p => containsSub p (rstripL raw)) = true
      · rw [processMiningLine_noise s raw h1 h2]
        exact ⟨hc, hp⟩
      · have h2f : miningNoise.any (fun p => containsSub p (rstripL raw)) = false := by
          simpa using h2
        rw [processMiningLine_cont s raw h1 h2f]
        constructor
        · rw [metricStep_currentPhase, logStep_currentPhase, phaseStep_currentPhase]
          exact detectPhase_mem s.currentPhase (rstripL raw) hc
        · rw [metricStep_progressPhase, logStep_progressPhase]
          rcases phaseStep_progressPhase { s with lineCount := s.lineCount + 1 }
              (rstripL raw) with he | he
          · rw [he]
            exact detectPhase_mem s.currentPhase (rstripL raw) hc
          · rw [he]
            exact hp
  · intro t c h
    by_cases hc : c = 0 <;> simp [finalizeMining, hc]
    · decide
    · exact h

/-- C7 witness: the amended invariants applied to the running phase and a
concrete line. -/
theorem C7_witness :
    detectPhase "planning" (lit "factor_propose step") ∈ allowedPhases ∧
    (processMiningLine (runMiningStart (startMiningTask none)) (lit "hello")).1.progressPhase
      ∈ allowedPhases :=
  ⟨C7_amended.2.2.2.1 "planning" (lit "factor_propose step") (by decide),
   (C7_amended.2.2.2.2.1 (runMiningStart (startMiningTask none)) (lit "hello")
      (by decide) (by decide)).2⟩

/-- C8: the sequential branch scheduler, as committed, performs one single
trial run with the last direction instead of one run per direction in order —
evaluated here at a two-direction input, where the committed indentation
denotes a single run with the second direction while the specification demands
two runs. -/
theorem C8_sequential_divergence :
    seqRunDirections_code ["momentum factors", "reversal factors"] = ["reversal factors"] ∧
    seqRunDirections_spec ["momentum factors", "reversal factors"]
      = ["momentum factors", "reversal factors"] ∧
    seqRunDirections_code ["momentum factors", "reversal factors"]
      ≠ seqRunDirections_spec ["momentum factors", "reversal factors"] :=
  ⟨rfl, rfl, by decide⟩

/-- C9: for every configured number of seconds and on both exit paths of the
wrapped call (normal and exception), the deadline wrapper has the alarm armed
with exactly the configured seconds when the call starts, the very last timer
action is the disarm `signal.alarm(0)`, the alarm register ends at 0, and the
expiry handler terminates the process with a nonzero exit status. -/
theorem C9_timer_scoped : ∀ (seconds : Nat) (ok : Bool),
    alarmRegAtCall (forceTimeoutTrace seconds ok) = seconds ∧
    alarmRegAfter 0 (forceTimeoutTrace seconds ok) = 0 ∧
    (forceTimeoutTrace seconds ok).getLast? = some (TimerAction.alarm 0) ∧
    handleTimeoutExitStatus ≠ 0 :=
  fun _ _ => ⟨rfl, rfl, rfl, by decide⟩

/-- C10: a subscriber attaching to a task with 25 buffered log entries
receives the progress snapshot followed by exactly the last 20 entries in
insertion order (a suffix of the buffer); after attaching it is in the
connection list, and every published event is delivered to every attached
subscriber whose send does not fail, which also survives the pruning — so no
subsequent event is skipped.  In general the replay length is
`min (buffer length) 20`. -/
theorem C10_subscribe_replay : ∀ (phase : String) (message : Line) (logs : List LogEntry)
    (conns : List Nat) (ws : Nat), logs.length = 25 →
    (wsAttach conns ws phase message logs).2
      = Event.progressEv phase message :: (logs.drop 5).map Event.logEv ∧
    (logs.drop 5).length = 20 ∧
    List.IsSuffix (logs.drop 5) logs ∧
    ws ∈ (wsAttach conns ws phase message logs).1 ∧
    (∀ (conns2 : List Nat) (fails : Nat → Bool) (msg : Event), ws ∈ conns2 →
      fails ws = false →
      (ws, msg) ∈ (broadcastStep conns2 fails msg).1 ∧
      ws ∈ (broadcastStep conns2 fails msg).2) ∧
    (∀ logs2 : List LogEntry, (logs2.drop (logs2.length - 20)).length = min logs2.length 20) := by
  intro phase message logs conns ws h
  refine ⟨?_, ?_, List.drop_suffix _ _, ?_, ?_, ?_⟩
  · simp [wsAttach, h]
  · rw [List.length_drop, h]
  · simp [wsAttach]
  · intro conns2 fails msg hmem hf
    have hfil : ws ∈ conns2.filter (fun w => !(fails w)) :=
      List.mem_filter.mpr ⟨hmem, by simp [hf]⟩
    exact ⟨List.mem_map.mpr ⟨ws, hfil, rfl⟩, hfil⟩
  · intro logs2
    rw [List.length_drop]
    omega

/-- C10 witness: the attach and delivery clauses at a concrete 25-entry
buffer and a concrete one-subscriber broadcast. -/
theorem C10_witness :
    0 ∈ (wsAttach [] 0 "planning" []
        (List.replicate 25 { level := Level.info, message := [] })).1 ∧
    (0, Event.errorEv) ∈ (broadcastStep [0] (fun _ => false) Event.errorEv).1 :=
  ⟨(C10_subscribe_replay "planning" [] (List.replicate 25 { level := Level.info, message := [] })
      [] 0 rfl).2.2.2.1,
   ((C10_subscribe_replay "planning" [] (List.replicate 25 { level := Level.info, message := [] })
      [] 0 rfl).2.2.2.2.1 [0] (fun _ => false) Event.errorEv (by decide) rfl).1⟩
